import Mathlib

/-!
Shallow embedding of the aggregation pipeline of `main.py` (the Streamlit MBE
performance dashboard).  Rows of the loaded CSV are modelled as `Row`; each
pandas aggregation of the six tabs is translated into a pure function on
`List Row`.  Pandas `groupby(keys)` sorts its group keys ascending, and an
inner `merge` preserves the order of the left frame's keys.  `sort_values`
(default kind quicksort) guarantees only the ordering by the sort key and
specifies no order among rows with equal keys; insertion sort is used here as
one executable refinement of it, and every theorem below relies only on the
properties common to all implementations of the sort (the result is a
permutation of the input ordered by the sort key), never on the tie order.
Float arithmetic on percentage and cost columns is modelled by exact rational
arithmetic.
-/

open List

/-- One row of the loaded CSV table (an AttemptRecord). -/
structure Row where
  questionNumber : Nat
  lawCategory : String
  platform : String
  model : String
  correct : Bool
  totalCost : ℚ
  duration : ℚ
  deriving DecidableEq, Repr

/-- The loaded table: its rows plus which optional columns are present. -/
structure Table where
  rows : List Row
  hasCost : Bool
  hasDuration : Bool

/-- Lexicographic strict comparison of character lists by code point, the
order pandas uses on string keys (a fully evaluable embedding of string
comparison). -/
def charListLt : List Char → List Char → Bool
  | [], [] => false
  | [], _ :: _ => true
  | _ :: _, [] => false
  | a :: as, b :: bs =>
    if a.toNat < b.toNat then true
    else if b.toNat < a.toNat then false
    else charListLt as bs

theorem charListLt_cons {a b : Char} {as bs : List Char} :
    charListLt (a :: as) (b :: bs) = true ↔
      a.toNat < b.toNat ∨ (a.toNat = b.toNat ∧ charListLt as bs = true) := by
  simp only [charListLt]
  split_ifs with h1 h2
  · simp [h1]
  · simp only [Bool.false_eq_true, false_iff]
    rintro (h | ⟨he, _⟩)
    · omega
    · omega
  · have he : a.toNat = b.toNat := by omega
    simp [h1, he]

theorem charListLt_trans : ∀ {as bs cs : List Char},
    charListLt as bs = true → charListLt bs cs = true → charListLt as cs = true := by
  intro as
  induction as with
  | nil =>
    intro bs cs h1 h2
    cases bs with
    | nil => simp [charListLt] at h1
    | cons b bs2 =>
      cases cs with
      | nil => simp [charListLt] at h2
      | cons c cs2 => simp [charListLt]
  | cons a as ih =>
    intro bs cs h1 h2
    cases bs with
    | nil => simp [charListLt] at h1
    | cons b bs2 =>
      cases cs with
      | nil => simp [charListLt] at h2
      | cons c cs2 =>
        rw [charListLt_cons] at h1 h2 ⊢
        rcases h1 with h1 | ⟨e1, r1⟩ <;> rcases h2 with h2 | ⟨e2, r2⟩
        · exact Or.inl (h1.trans h2)
        · exact Or.inl (e2 ▸ h1)
        · exact Or.inl (by rw [e1]; exact h2)
        · exact Or.inr ⟨e1.trans e2, ih r1 r2⟩

theorem charListLt_total : ∀ (as bs : List Char),
    charListLt as bs = true ∨ charListLt bs as = true ∨ as = bs := by
  intro as
  induction as with
  | nil =>
    intro bs
    cases bs with
    | nil => exact Or.inr (Or.inr rfl)
    | cons b bs2 => exact Or.inl (by simp [charListLt])
  | cons a as ih =>
    intro bs
    cases bs with
    | nil => exact Or.inr (Or.inl (by simp [charListLt]))
    | cons b bs2 =>
      rcases Nat.lt_trichotomy a.toNat b.toNat with h | h | h
      · exact Or.inl (charListLt_cons.mpr (Or.inl h))
      · rcases ih bs2 with h2 | h2 | h2
        · exact Or.inl (charListLt_cons.mpr (Or.inr ⟨h, h2⟩))
        · exact Or.inr (Or.inl (charListLt_cons.mpr (Or.inr ⟨h.symm, h2⟩)))
        · have he : a = b := by
            rw [← Char.ofNat_toNat a, ← Char.ofNat_toNat b, h]
          exact Or.inr (Or.inr (by rw [he, h2]))
      · exact Or.inr (Or.inl (charListLt_cons.mpr (Or.inl h)))

/-- Strict lexicographic order on strings by code point. -/
def strLt (a b : String) : Prop := charListLt a.data b.data = true

/-- Reflexive lexicographic order on strings. -/
def strLe (a b : String) : Prop := strLt a b ∨ a = b

instance : DecidableRel strLt := fun a b => by
  unfold strLt; exact inferInstance

instance : DecidableRel strLe := fun a b => by
  unfold strLe; exact inferInstance

theorem strLt_trans {a b c : String} (h1 : strLt a b) (h2 : strLt b c) : strLt a c :=
  charListLt_trans h1 h2

theorem strLt_trichotomy (a b : String) : strLt a b ∨ strLt b a ∨ a = b := by
  rcases charListLt_total a.data b.data with h | h | h
  · exact Or.inl h
  · exact Or.inr (Or.inl h)
  · exact Or.inr (Or.inr (String.ext h))

theorem strLe_trans {a b c : String} (h1 : strLe a b) (h2 : strLe b c) : strLe a c := by
  rcases h1 with h1 | rfl
  · rcases h2 with h2 | rfl
    · exact Or.inl (strLt_trans h1 h2)
    · exact Or.inl h1
  · exact h2

theorem strLe_total (a b : String) : strLe a b ∨ strLe b a := by
  rcases strLt_trichotomy a b with h | h | h
  · exact Or.inl (Or.inl h)
  · exact Or.inr (Or.inl h)
  · exact Or.inl (Or.inr h)

/-- Ascending order on `(Model, AI Platform)` group keys: pandas sorts group
keys lexicographically as tuples. -/
def pairLe (a b : String × String) : Prop :=
  strLt a.1 b.1 ∨ (a.1 = b.1 ∧ strLe a.2 b.2)

instance : DecidableRel pairLe := fun a b => by
  unfold pairLe; exact inferInstance

instance : IsTotal (String × String) pairLe where
  total a b := by
    rcases strLt_trichotomy a.1 b.1 with h | h | h
    · exact Or.inl (Or.inl h)
    · exact Or.inr (Or.inl h)
    · rcases strLe_total a.2 b.2 with h2 | h2
      · exact Or.inl (Or.inr ⟨h, h2⟩)
      · exact Or.inr (Or.inr ⟨h.symm, h2⟩)

instance : IsTrans (String × String) pairLe where
  trans a b c hab hbc := by
    rcases hab with h1 | ⟨e1, l1⟩ <;> rcases hbc with h2 | ⟨e2, l2⟩
    · exact Or.inl (strLt_trans h1 h2)
    · exact Or.inl (e2 ▸ h1)
    · exact Or.inl (by rw [e1]; exact h2)
    · exact Or.inr ⟨e1.trans e2, strLe_trans l1 l2⟩

/-- Ascending order on `(Model, AI Platform, Law Category)` group keys. -/
def tripleLe (a b : String × String × String) : Prop :=
  strLt a.1 b.1 ∨ (a.1 = b.1 ∧ pairLe a.2 b.2)

instance : DecidableRel tripleLe := fun a b => by
  unfold tripleLe; exact inferInstance

instance : IsTotal (String × String × String) tripleLe where
  total a b := by
    rcases strLt_trichotomy a.1 b.1 with h | h | h
    · exact Or.inl (Or.inl h)
    · exact Or.inr (Or.inl h)
    · rcases total_of pairLe a.2 b.2 with h2 | h2
      · exact Or.inl (Or.inr ⟨h, h2⟩)
      · exact Or.inr (Or.inr ⟨h.symm, h2⟩)

instance : IsTrans (String × String × String) tripleLe where
  trans a b c hab hbc := by
    rcases hab with h1 | ⟨e1, l1⟩ <;> rcases hbc with h2 | ⟨e2, l2⟩
    · exact Or.inl (strLt_trans h1 h2)
    · exact Or.inl (e2 ▸ h1)
    · exact Or.inl (by rw [e1]; exact h2)
    · exact Or.inr ⟨e1.trans e2, IsTrans.trans _ _ _ l1 l2⟩

/-- The sorted distinct keys of a list under `key`, as pandas `groupby`
computes its group keys: one entry per distinct key, ascending. -/
def sortedKeys {α K : Type} [DecidableEq K] (le : K → K → Prop) [DecidableRel le]
    (key : α → K) (l : List α) : List K :=
  insertionSort le (l.map key).dedup

/-- Embedding of `groupby(keys).size()`: one `(key, row count)` entry per
distinct key, keys ascending. -/
def groupCount {α K : Type} [DecidableEq K] (le : K → K → Prop) [DecidableRel le]
    (key : α → K) (l : List α) : List (K × Nat) :=
  (sortedKeys le key l).map fun k => (k, l.countP fun r => decide (key r = k))

/-- Lookup of a key in an association list (both frames sent to `pd.merge`
here have one row per key). -/
def lookupKey {K V : Type} [DecidableEq K] : List (K × V) → K → Option V
  | [], _ => none
  | kv :: rest, k => if kv.1 = k then some kv.2 else lookupKey rest k

/-- Embedding of `pd.merge(left, right, on=keys, how='inner')` for frames with
one row per key: keys present in both sides, order of the left frame kept. -/
def mergeInner {K A B : Type} [DecidableEq K]
    (left : List (K × A)) (right : List (K × B)) : List (K × A × B) :=
  left.filterMap fun ka => (lookupKey right ka.1).map fun b => (ka.1, ka.2, b)

/-- The `(Model, AI Platform)` group key of a row. -/
def pairKey (r : Row) : String × String := (r.model, r.platform)

/-- One row of the tab-1 accuracy frame (`percentage_correct` in main.py). -/
structure AccRow where
  model : String
  platform : String
  total : Nat
  correct : Nat
  percentage : ℚ
  deriving DecidableEq, Repr

/-- main.py line 150: `filtered_df.groupby(['Model', 'AI Platform']).size()`,
column named `Total`. -/
def total_questions (rows : List Row) : List ((String × String) × Nat) :=
  groupCount pairLe pairKey rows

/-- main.py line 151: the rows with `Correct == True`, grouped the same way,
column named `Correct`. -/
def correct_answers (rows : List Row) : List ((String × String) × Nat) :=
  groupCount pairLe pairKey (rows.filter (·.correct))

/-- main.py lines 152-156: inner merge of the totals with the correct counts
on `['Model', 'AI Platform']`, `Percentage = (Correct / Total) * 100`, then
the rows whose `AI Platform` is `Human` are removed. -/
def percentage_correct (rows : List Row) : List AccRow :=
  ((mergeInner (total_questions rows) (correct_answers rows)).map fun e =>
    ⟨e.1.1, e.1.2, e.2.1, e.2.2, ((e.2.2 : ℚ) / (e.2.1 : ℚ)) * 100⟩).filter
    fun a => a.platform != "Human"

/-- main.py line 228: `percentage_correct.sort_values('Percentage',
ascending=False)`, the displayed accuracy table.  The code's default
quicksort fixes no order among rows of equal percentage; the insertion sort
here is one admissible execution, and theorems assert only membership and
the descending percentage order, which hold for any of them. -/
def display_df (rows : List Row) : List AccRow :=
  insertionSort (fun a b => b.percentage ≤ a.percentage) (percentage_correct rows)

/-- main.py lines 233-245: the correct rows grouped by `(Model, AI Platform)`
(line 236), the `Human` platform removed (line 239), then sorted by `Correct`
descending (line 245; the tie order is unspecified by the code and unused by
any theorem). -/
def correct_counts (rows : List Row) : List ((String × String) × Nat) :=
  insertionSort (fun a b => b.2 ≤ a.2)
    ((groupCount pairLe pairKey (rows.filter (·.correct))).filter fun e => e.1.2 != "Human")

/-- main.py lines 342 and 423: `Series.replace('Criminal Law/Prosecution',
'Criminal Law and Procedure')` on the `Law Category` column. -/
def normalizeCategory (c : String) : String :=
  if c = "Criminal Law/Prosecution" then "Criminal Law and Procedure" else c

/-- main.py lines 339-342: the correct rows, with the `Law Category` column
normalized in place. -/
def correct_df (rows : List Row) : List Row :=
  (rows.filter (·.correct)).map fun r => { r with lawCategory := normalizeCategory r.lawCategory }

/-- The `(Model, AI Platform, Law Category)` group key of a row. -/
def tripleKey (r : Row) : String × String × String := (r.model, r.platform, r.lawCategory)

/-- main.py line 345: `correct_df.groupby(['Model', 'AI Platform',
'Law Category']).size()`, column named `Count`. -/
def category_counts (rows : List Row) : List ((String × String × String) × Nat) :=
  groupCount tripleLe tripleKey (correct_df rows)

/-- main.py line 364: `category_counts` restricted to the selected category,
keyed by `Model` with its `Count`. -/
def model_order (rows : List Row) (selectedCategory : String) : List (String × Nat) :=
  ((category_counts rows).filter fun e => e.1.2.2 == selectedCategory).map fun e => (e.1.1, e.2)

/-- main.py lines 366-367:
`model_order.sort_values(ascending=False).index.tolist()`: the model axis
ordering used in category sort mode (the tie order is unspecified by the
code and unused by any theorem). -/
def sorted_models (rows : List Row) (selectedCategory : String) : List String :=
  (insertionSort (fun a b => b.2 ≤ a.2) (model_order rows selectedCategory)).map (·.1)

/-- main.py line 423: the second alias replacement, applied to the
`Law Category` column of `category_counts` just before pivoting. -/
def category_counts2 (rows : List Row) : List ((String × String × String) × Nat) :=
  (category_counts rows).map fun e => ((e.1.1, e.1.2.1, normalizeCategory e.1.2.2), e.2)

/-- One row of the tab-3 pivot table: the per-category cells plus the `Total`
column. -/
structure PivotRow where
  model : String
  platform : String
  cells : List (String × Nat)
  total : Nat
  deriving DecidableEq, Repr

/-- main.py lines 425-438: `pivot_table(values='Count', index=['Model',
'AI Platform'], columns='Law Category', aggfunc='sum', fill_value=0)`, a
`Total` column summing each row over the category columns (line 435), sorted
by `Total` descending (line 438). -/
def pivot_table (rows : List Row) : List PivotRow :=
  let cc := category_counts2 rows
  let cats := insertionSort strLe ((cc.map fun e => e.1.2.2).dedup)
  let keys := insertionSort pairLe ((cc.map fun e => (e.1.1, e.1.2.1)).dedup)
  insertionSort (fun a b => b.total ≤ a.total)
    (keys.map fun k =>
      let cells := cats.map fun c =>
        (c, ((cc.filter fun e => decide (e.1 = (k.1, k.2, c))).map (·.2)).sum)
      ⟨k.1, k.2, cells, (cells.map (·.2)).sum⟩)

/-- One row of the tab-4 cost frame (`merged_data` in main.py). -/
structure CostRow where
  model : String
  platform : String
  averageCost : ℚ
  correctAnswers : Nat
  totalQuestions : Nat
  percentageCorrect : ℚ
  deriving DecidableEq, Repr

/-- main.py lines 445-466: `cost_summary` aggregates the sum and count of
`total_cost` per `(Model, AI Platform)` (count of rows, the column having no
missing values), removes `Human` (line 451), takes `Average Cost Per
Question = total_sum / question_count` (line 454), left-merges the correct
counts (fillna 0) and the total counts (lines 461-463), and sets
`Percentage Correct = (Correct Answers / Total Questions) * 100`. -/
def merged_data (rows : List Row) : List CostRow :=
  ((groupCount pairLe pairKey rows).filter fun e => e.1.2 != "Human").map fun e =>
    let totalSum : ℚ := ((rows.filter fun r => decide (pairKey r = e.1)).map (·.totalCost)).sum
    let cor : Nat := (lookupKey (correct_answers rows) e.1).getD 0
    let tot : Nat := (lookupKey (total_questions rows) e.1).getD 0
    ⟨e.1.1, e.1.2, totalSum / (e.2 : ℚ), cor, tot, ((cor : ℚ) / (tot : ℚ)) * 100⟩

/-- The tab-4 output: the cost table, or the notice that cost data is not
available. -/
inductive CostResult where
  | unavailable
  | available (rows : List CostRow)
  deriving DecidableEq, Repr

/-- main.py lines 441-507: the cost tab computes `merged_data` only when a
`total_cost` column exists; otherwise it just reports that cost data is not
available in the dataset. -/
def costTab (t : Table) : CostResult :=
  if t.hasCost then .available (merged_data t.rows) else .unavailable

/-- One row of the tab-5 time frame. -/
structure TimeRow where
  model : String
  platform : String
  avgDuration : ℚ
  percentageCorrect : ℚ
  deriving DecidableEq, Repr

/-- The tab-5 output: the time table, or the notice that duration data is not
available. -/
inductive TimeResult where
  | unavailable
  | available (rows : List TimeRow)
  deriving DecidableEq, Repr

/-- main.py lines 508-571: the time tab, guarded on the `duration` column;
`avg_duration` is the mean of `duration` per `(Model, AI Platform)`, `Human`
removed, joined with the correct percentage exactly as in the cost tab. -/
def timeTab (t : Table) : TimeResult :=
  if t.hasDuration then
    .available (((groupCount pairLe pairKey t.rows).filter fun e => e.1.2 != "Human").map fun e =>
      let durSum : ℚ := ((t.rows.filter fun r => decide (pairKey r = e.1)).map (·.duration)).sum
      let cor : Nat := (lookupKey (correct_answers t.rows) e.1).getD 0
      let tot : Nat := (lookupKey (total_questions t.rows) e.1).getD 0
      ⟨e.1.1, e.1.2, durSum / (e.2 : ℚ), ((cor : ℚ) / (tot : ℚ)) * 100⟩)
  else .unavailable

/-- A dynamically typed cell of the `Correct` column, as the tab-6 pivot sees
it: either a Python bool or some other value. -/
inductive CellVal where
  | bool (b : Bool)
  | nonBool (tag : String)
  deriving DecidableEq, Repr

/-- isinstance(val, bool). -/
def CellVal.isBool : CellVal → Bool
  | .bool _ => true
  | .nonBool _ => false

/-- Truth of a bool cell. -/
def CellVal.isTrue : CellVal → Bool
  | .bool b => b
  | .nonBool _ => false

/-- main.py lines 582-587: the aggfunc of the tab-6 pivot.  On a cell group
`x` it yields the label `Correct` when all values are bools and one is true,
`Incorrect` when all are bools and none is true; otherwise it evaluates a
`print` call and the `None` that `print` returns becomes the cell value:
`none` models that `None`. -/
def aggOutcome (x : List CellVal) : Option String :=
  if x.all CellVal.isBool && x.any CellVal.isTrue then some "Correct"
  else if x.all CellVal.isBool then some "Incorrect"
  else none

/-- A row as the tab-6 pivot consumes it, with the `Correct` column kept as
the dynamically typed value found in the CSV. -/
structure RawRow where
  questionNumber : Nat
  lawCategory : String
  model : String
  correctVal : CellVal
  deriving DecidableEq, Repr

/-- Ascending order on `(Question Number, Law Category)` index keys. -/
def qcatLe (a b : Nat × String) : Prop :=
  a.1 < b.1 ∨ (a.1 = b.1 ∧ strLe a.2 b.2)

instance : DecidableRel qcatLe := fun a b => by
  unfold qcatLe; exact inferInstance

/-- main.py lines 578-588: `pivot_table(index=['Question Number',
'Law Category'], columns='Model', values='Correct', aggfunc=<lambda>)`; each
`(question, category) x model` cell holds the aggfunc value of that group's
`Correct` values, and `none` (NaN) when the combination has no rows. -/
def question_pivot (rows : List RawRow) : List ((Nat × String) × List (String × Option String)) :=
  let idx := insertionSort qcatLe ((rows.map fun r => (r.questionNumber, r.lawCategory)).dedup)
  let mods := insertionSort strLe ((rows.map (·.model)).dedup)
  idx.map fun q =>
    (q, mods.map fun m =>
      let vals := (rows.filter fun r =>
        decide ((r.questionNumber, r.lawCategory) = q ∧ r.model = m)).map (·.correctVal)
      (m, if vals.isEmpty then none else aggOutcome vals))

/-- Rounding of a rational to the nearest integer, halves to even: the
rounding used by numpy, hence by `Series.round`. -/
def roundHalfEven (q : ℚ) : ℤ :=
  let f := ⌊q⌋
  let r := q - f
  if r < 1/2 then f
  else if 1/2 < r then f + 1
  else if f % 2 = 0 then f else f + 1

/-- Series.round(1): rounding to one decimal place. -/
def round1 (q : ℚ) : ℚ := (roundHalfEven (q * 10) : ℚ) / 10

/-- One row of the tab-6 per-question summary. -/
structure QSum where
  question : Nat
  totalCorrect : Nat
  totalModels : Nat
  percentageCorrect : ℚ
  deriving DecidableEq, Repr

/-- main.py lines 591-597: `groupby('Question Number')` with `total_correct =
sum(Correct)` (the count of true values), `total_models = nunique(Model)`,
and `Percentage Correct = (total_correct / total_models * 100).round(1)`. -/
def question_summary (rows : List Row) : List QSum :=
  (sortedKeys (fun a b : Nat => a ≤ b) (·.questionNumber) rows).map fun q =>
    let qrows := rows.filter fun r => decide (r.questionNumber = q)
    let tc := qrows.countP (·.correct)
    let tm := (qrows.map (·.model)).dedup.length
    ⟨q, tc, tm, round1 (((tc : ℚ) / (tm : ℚ)) * 100)⟩

/-- main.py lines 573-632: the tab-6 body runs only when at least one model
is selected; with no model selected only a prompt is shown and no table is
produced.  The payload carried here is the per-question summary component of
the displayed table. -/
def questionTab (rows : List Row) (selectedModels : List String) : Option (List QSum) :=
  if selectedModels.length > 0 then some (question_summary rows) else none

/-- main.py lines 73-81: the working set, namely the rows limited to the
selected platforms and then to the selected models. -/
def applyFilter (rows : List Row) (selectedPlatforms selectedModels : List String) : List Row :=
  (rows.filter fun r => selectedPlatforms.contains r.platform).filter
    fun r => selectedModels.contains r.model

/-! ### Generic lemmas about the groupby embedding -/

theorem mem_sortedKeys {α K : Type} [DecidableEq K] {le : K → K → Prop} [DecidableRel le]
    {key : α → K} {l : List α} {k : K} : k ∈ sortedKeys le key l ↔ k ∈ l.map key := by
  unfold sortedKeys
  rw [mem_insertionSort, mem_dedup]

theorem nodup_sortedKeys {α K : Type} [DecidableEq K] (le : K → K → Prop) [DecidableRel le]
    (key : α → K) (l : List α) : (sortedKeys le key l).Nodup :=
  ((perm_insertionSort le _).nodup_iff).mpr (nodup_dedup _)

theorem lookupKey_map_graph {K V : Type} [DecidableEq K] (ks : List K) (f : K → V) (k : K) :
    lookupKey (ks.map fun x => (x, f x)) k = if k ∈ ks then some (f k) else none := by
  induction ks with
  | nil => rfl
  | cons a t ih =>
    by_cases h : a = k
    · subst h
      simp [lookupKey]
    · simp only [map_cons, lookupKey, if_neg h, ih]
      have hk : k ≠ a := fun hh => h hh.symm
      simp [mem_cons, hk]

theorem lookupKey_groupCount {α K : Type} [DecidableEq K] (le : K → K → Prop) [DecidableRel le]
    (key : α → K) (l : List α) (k : K) :
    lookupKey (groupCount le key l) k =
      if k ∈ l.map key then some (l.countP fun r => decide (key r = k)) else none := by
  unfold groupCount
  rw [lookupKey_map_graph]
  by_cases h : k ∈ l.map key
  · rw [if_pos (mem_sortedKeys.mpr h), if_pos h]
  · rw [if_neg (fun hh => h (mem_sortedKeys.mp hh)), if_neg h]

theorem mem_groupCount {α K : Type} [DecidableEq K] {le : K → K → Prop} [DecidableRel le]
    {key : α → K} {l : List α} {k : K} {n : Nat} :
    (k, n) ∈ groupCount le key l ↔ k ∈ l.map key ∧ n = l.countP fun r => decide (key r = k) := by
  unfold groupCount
  constructor
  · intro h
    rcases mem_map.mp h with ⟨k2, hk2, he⟩
    injection he with h1 h2
    subst h1
    subst h2
    exact ⟨mem_sortedKeys.mp hk2, rfl⟩
  · rintro ⟨h1, rfl⟩
    exact mem_map.mpr ⟨k, mem_sortedKeys.mpr h1, rfl⟩

theorem mem_mergeInner {K A B : Type} [DecidableEq K]
    {left : List (K × A)} {right : List (K × B)} {k : K} {a : A} {b : B} :
    (k, a, b) ∈ mergeInner left right ↔ (k, a) ∈ left ∧ lookupKey right k = some b := by
  unfold mergeInner
  rw [mem_filterMap]
  constructor
  · rintro ⟨⟨k2, a2⟩, hmem, hf⟩
    rcases Option.map_eq_some'.mp hf with ⟨b2, hb2, he⟩
    injection he with h1 h2
    injection h2 with h2a h2b
    subst h1; subst h2a; subst h2b
    exact ⟨hmem, hb2⟩
  · rintro ⟨h1, h2⟩
    exact ⟨(k, a), h1, by simp [h2]⟩

/-- The number of rows of a `(Model, AI Platform)` pair in a working set. -/
def pairTotal (rows : List Row) (k : String × String) : Nat :=
  rows.countP fun r => decide (pairKey r = k)

/-- The number of correct rows of a `(Model, AI Platform)` pair. -/
def pairCorrect (rows : List Row) (k : String × String) : Nat :=
  (rows.filter (·.correct)).countP fun r => decide (pairKey r = k)

theorem mem_total_questions {rows : List Row} {k : String × String} {t : Nat} :
    (k, t) ∈ total_questions rows ↔ k ∈ rows.map pairKey ∧ t = pairTotal rows k :=
  mem_groupCount

theorem lookupKey_total_questions (rows : List Row) (k : String × String) :
    lookupKey (total_questions rows) k =
      if k ∈ rows.map pairKey then some (pairTotal rows k) else none := by
  have h := lookupKey_groupCount pairLe pairKey rows k
  by_cases hk : k ∈ rows.map pairKey
  · rw [if_pos hk] at h
    rw [if_pos hk]
    exact h
  · rw [if_neg hk] at h
    rw [if_neg hk]
    exact h

theorem lookupKey_correct_answers (rows : List Row) (k : String × String) :
    lookupKey (correct_answers rows) k =
      if k ∈ (rows.filter (·.correct)).map pairKey then some (pairCorrect rows k) else none := by
  have h := lookupKey_groupCount pairLe pairKey (rows.filter (·.correct)) k
  by_cases hk : k ∈ (rows.filter (·.correct)).map pairKey
  · rw [if_pos hk] at h
    rw [if_pos hk]
    exact h
  · rw [if_neg hk] at h
    rw [if_neg hk]
    exact h

theorem mem_percentage_correct {rows : List Row} {a : AccRow} :
    a ∈ percentage_correct rows ↔
      (a.model, a.platform) ∈ rows.map pairKey ∧
      (a.model, a.platform) ∈ (rows.filter (·.correct)).map pairKey ∧
      a.total = pairTotal rows (a.model, a.platform) ∧
      a.correct = pairCorrect rows (a.model, a.platform) ∧
      a.percentage = ((a.correct : ℚ) / (a.total : ℚ)) * 100 ∧
      a.platform ≠ "Human" := by
  unfold percentage_correct
  rw [mem_filter, mem_map]
  constructor
  · rintro ⟨⟨⟨k, t, c⟩, hmem, rfl⟩, hne⟩
    rw [mem_mergeInner] at hmem
    obtain ⟨h1, h2⟩ := hmem
    rw [mem_total_questions] at h1
    rw [lookupKey_correct_answers] at h2
    by_cases hk : k ∈ (rows.filter (·.correct)).map pairKey
    · rw [if_pos hk] at h2
      injection h2 with h2
      refine ⟨h1.1, hk, h1.2, h2.symm, rfl, ?_⟩
      exact bne_iff_ne.mp hne
    · rw [if_neg hk] at h2
      exact absurd h2 (by simp)
  · rintro ⟨h1, h2, h3, h4, h5, h6⟩
    refine ⟨⟨((a.model, a.platform), a.total, a.correct), ?_, ?_⟩, ?_⟩
    · rw [mem_mergeInner]
      refine ⟨mem_total_questions.mpr ⟨h1, h3⟩, ?_⟩
      rw [lookupKey_correct_answers, if_pos h2, h4]
    · cases a
      simp only at h5
      simp [h5]
    · simpa using h6

/-! ### Sortedness of the displayed accuracy table.  Only the ordering by
the sort key is asserted: pandas `sort_values` with its default quicksort
specifies no order among rows of equal percentage, so nothing about ties is
claimed or used. -/

theorem display_df_sorted_desc (rows : List Row) :
    (display_df rows).Pairwise fun x y => y.percentage ≤ x.percentage := by
  haveI : IsTotal AccRow (fun a b => b.percentage ≤ a.percentage) :=
    ⟨fun a b => le_total b.percentage a.percentage⟩
  haveI : IsTrans AccRow (fun a b => b.percentage ≤ a.percentage) :=
    ⟨fun _ _ _ h1 h2 => le_trans h2 h1⟩
  exact sorted_insertionSort _ _

/-! ### Claim C1 -/

/-- Working set exhibiting pairs that the accuracy aggregator drops: the pair
(ModelA, Claude) has rows but no correct row, and the pair
(HumanPool, Human) is removed by the Human filter. -/
def c1CounterRows : List Row :=
  [⟨1, "Contracts", "Claude", "ModelA", false, 0, 0⟩,
   ⟨1, "Contracts", "Human", "HumanPool", true, 0, 0⟩]

/-- C1, counterexample: the claim says the aggregator produces a row for each
`(model, platform)` pair present in the WorkingSet, but on this working set
both pairs are present and the displayed accuracy table is empty: the inner
merge drops the zero-correct pair and the Human filter drops the human
pair. -/
theorem accuracy_table_counterexample :
    ("ModelA", "Claude") ∈ c1CounterRows.map pairKey ∧
    ("HumanPool", "Human") ∈ c1CounterRows.map pairKey ∧
    display_df c1CounterRows = [] := by
  refine ⟨by decide, by decide, ?_⟩
  rfl

/-- C1, amended: for each `(model, platform)` pair of the WorkingSet that has
at least one correct row and whose platform is not Human, the accuracy table
contains the row with `total` the number of the pair's rows, `correct` the
number of its correct rows and `percentage = (correct / total) * 100`; and
the displayed table is sorted descending by percentage.  The code guarantees
no order among rows of equal percentage (sort_values uses its default
quicksort and names no secondary key), so no tie-break is claimed. -/
theorem accuracy_table_amended (rows : List Row) (m p : String) (hp : p ≠ "Human")
    (h : (m, p) ∈ (rows.filter (·.correct)).map pairKey) :
    (⟨m, p, pairTotal rows (m, p), pairCorrect rows (m, p),
        ((pairCorrect rows (m, p) : ℚ) / (pairTotal rows (m, p) : ℚ)) * 100⟩ : AccRow)
      ∈ display_df rows ∧
    (display_df rows).Pairwise fun x y => y.percentage ≤ x.percentage := by
  constructor
  · rw [display_df, mem_insertionSort, mem_percentage_correct]
    refine ⟨?_, h, rfl, rfl, rfl, hp⟩
    rcases mem_map.mp h with ⟨r, hr, he⟩
    exact mem_map.mpr ⟨r, mem_of_mem_filter hr, he⟩
  · exact display_df_sorted_desc rows

/-- Working set for the C1 witness: one pair with one correct and one
incorrect row. -/
def c1WitnessRows : List Row :=
  [⟨1, "Contracts", "Claude", "ModelA", true, 0, 0⟩,
   ⟨2, "Torts", "Claude", "ModelA", false, 0, 0⟩]

/-- Witness instantiating the amended C1 theorem on a concrete working
set. -/
theorem accuracy_table_amended_witness :
    (⟨"ModelA", "Claude", pairTotal c1WitnessRows ("ModelA", "Claude"),
        pairCorrect c1WitnessRows ("ModelA", "Claude"),
        ((pairCorrect c1WitnessRows ("ModelA", "Claude") : ℚ) /
          (pairTotal c1WitnessRows ("ModelA", "Claude") : ℚ)) * 100⟩ : AccRow)
      ∈ display_df c1WitnessRows ∧
    (display_df c1WitnessRows).Pairwise fun x y => y.percentage ≤ x.percentage :=
  accuracy_table_amended c1WitnessRows "ModelA" "Claude" (by decide) (by decide)

/-! ### Claim C10 -/

/-- C10: a `(model, platform)` pair that has rows in the working set but no
correct row is entirely absent from the accuracy aggregator's output, because
the inner merge of the totals with the correct counts drops its key. -/
theorem zero_correct_pair_absent (rows : List Row) (m p : String)
    (_hmem : (m, p) ∈ rows.map pairKey)
    (hnone : ∀ r ∈ rows, pairKey r = (m, p) → r.correct = false) :
    ∀ a ∈ percentage_correct rows, (a.model, a.platform) ≠ (m, p) := by
  intro a ha he
  rw [mem_percentage_correct] at ha
  obtain ⟨h1, h2, _⟩ := ha
  rw [he] at h2
  rcases mem_map.mp h2 with ⟨r, hr, hkey⟩
  rw [mem_filter] at hr
  have hf := hnone r hr.1 hkey
  have ht := hr.2
  rw [hf] at ht
  exact absurd ht (by simp)

/-- Working set for the C10 witness: one pair whose only row is incorrect. -/
def c10WitnessRows : List Row :=
  [⟨1, "Contracts", "Claude", "ModelA", false, 0, 0⟩]

/-- Witness instantiating the C10 theorem on a concrete working set. -/
theorem zero_correct_pair_absent_witness :
    ("ModelA", "Claude") ∈ c10WitnessRows.map pairKey ∧
    ∀ a ∈ percentage_correct c10WitnessRows, (a.model, a.platform) ≠ ("ModelA", "Claude") :=
  ⟨by decide, zero_correct_pair_absent c10WitnessRows "ModelA" "Claude" (by decide) (by decide)⟩

/-! ### Claim C3 -/

theorem normalizeCategory_ne_alias (c : String) :
    normalizeCategory c ≠ "Criminal Law/Prosecution" := by
  unfold normalizeCategory
  split_ifs with h
  · decide
  · exact h

theorem map_fst_groupCount {α K : Type} [DecidableEq K] (le : K → K → Prop) [DecidableRel le]
    (key : α → K) (l : List α) :
    (groupCount le key l).map (·.1) = sortedKeys le key l := by
  unfold groupCount
  rw [map_map]
  exact map_id _

theorem category_counts_count (rows : List Row) :
    ∀ e ∈ category_counts rows,
      e.2 = rows.countP fun r =>
        decide (r.correct = true ∧ r.model = e.1.1 ∧ r.platform = e.1.2.1 ∧
          normalizeCategory r.lawCategory = e.1.2.2) := by
  rintro ⟨⟨km, kp, kc⟩, n⟩ he
  rcases mem_groupCount.mp he with ⟨_, hn⟩
  subst hn
  unfold correct_df
  rw [countP_map, countP_filter]
  apply countP_congr
  intro r _
  cases hc : r.correct
  · simp [hc]
  · simp only [Function.comp, tripleKey, hc, Bool.and_true]
    simp [Prod.mk.injEq, and_assoc]

/-- C3: in the category breakdown, normalization runs before grouping: no
group key carries the alias label, every correct row with the alias label is
counted under the canonical label for its model, and each group's count is
the number of correct rows whose normalized category equals the group's
category. -/
theorem category_normalization (rows : List Row) :
    (∀ e ∈ category_counts rows, e.1.2.2 ≠ "Criminal Law/Prosecution") ∧
    (∀ r ∈ rows, r.correct = true → r.lawCategory = "Criminal Law/Prosecution" →
      (r.model, r.platform, "Criminal Law and Procedure") ∈ (category_counts rows).map (·.1)) ∧
    (∀ e ∈ category_counts rows,
      e.2 = rows.countP fun r =>
        decide (r.correct = true ∧ r.model = e.1.1 ∧ r.platform = e.1.2.1 ∧
          normalizeCategory r.lawCategory = e.1.2.2)) := by
  refine ⟨?_, ?_, ?_⟩
  · rintro ⟨k, n⟩ he
    rcases mem_groupCount.mp he with ⟨hk, _⟩
    rcases mem_map.mp hk with ⟨r2, hr2, hkey⟩
    rcases mem_map.mp hr2 with ⟨r0, _, rfl⟩
    rw [← hkey]
    exact normalizeCategory_ne_alias r0.lawCategory
  · intro r hr hc hcat
    have h1 : { r with lawCategory := normalizeCategory r.lawCategory } ∈ correct_df rows :=
      mem_map.mpr ⟨r, mem_filter.mpr ⟨hr, by rw [hc]⟩, rfl⟩
    have h2 : (r.model, r.platform, "Criminal Law and Procedure")
        ∈ (correct_df rows).map tripleKey := by
      refine mem_map.mpr ⟨_, h1, ?_⟩
      show (r.model, r.platform, normalizeCategory r.lawCategory) = _
      rw [hcat]
      simp [normalizeCategory]
    unfold category_counts
    rw [map_fst_groupCount]
    exact mem_sortedKeys.mpr h2
  · exact category_counts_count rows

/-! ### Claim C2 -/

/-- C2: the tab-6 pivot labels an all-boolean cell group `Correct` when a
value is true and `Incorrect` when none is, as claimed; but on a non-boolean
value the lambda evaluates `print` and continues with the `None` that
`print` returns as the cell value, so the pivot silently carries a default
cell instead of surfacing a data-quality error. -/
theorem question_pivot_outcomes :
    aggOutcome [CellVal.bool true] = some "Correct" ∧
    aggOutcome [CellVal.bool false] = some "Incorrect" ∧
    aggOutcome [CellVal.nonBool "1"] = none ∧
    question_pivot [⟨7, "Contracts", "ModelA", CellVal.nonBool "1"⟩] =
      [((7, "Contracts"), [("ModelA", none)])] ∧
    question_pivot [⟨7, "Contracts", "ModelA", CellVal.bool true⟩] =
      [((7, "Contracts"), [("ModelA", some "Correct")])] :=
  ⟨rfl, rfl, rfl, rfl, rfl⟩

/-! ### Claim C7 -/

/-- C7: with the empty model selection every aggregator yields an empty
output and none fails: the working set is empty; the accuracy, raw-count,
category and pivot tables are empty; the cost and time tabs yield an empty
table when their optional column exists and their explicit unavailable
notice otherwise; and the question tab produces no table. -/
theorem empty_selection_all_empty (t : Table) (plats : List String) :
    applyFilter t.rows plats [] = [] ∧
    display_df (applyFilter t.rows plats []) = [] ∧
    percentage_correct (applyFilter t.rows plats []) = [] ∧
    correct_counts (applyFilter t.rows plats []) = [] ∧
    category_counts (applyFilter t.rows plats []) = [] ∧
    pivot_table (applyFilter t.rows plats []) = [] ∧
    costTab ⟨applyFilter t.rows plats [], t.hasCost, t.hasDuration⟩ =
      (if t.hasCost then CostResult.available [] else CostResult.unavailable) ∧
    timeTab ⟨applyFilter t.rows plats [], t.hasCost, t.hasDuration⟩ =
      (if t.hasDuration then TimeResult.available [] else TimeResult.unavailable) ∧
    questionTab (applyFilter t.rows plats []) [] = none := by
  have hws : applyFilter t.rows plats [] = [] := by
    unfold applyFilter
    simp
  rw [hws]
  exact ⟨rfl, rfl, rfl, rfl, rfl, rfl, by cases t.hasCost <;> rfl,
    by cases t.hasDuration <;> rfl, rfl⟩

/-! ### Claim C6 -/

/-- C6: when the table has no `total_cost` column the cost tab returns the
explicit unavailable result instead of raising, and the accuracy aggregator
still returns its normal output on the same working set: every row of its
table carries the pair's true total, correct count and percentage. -/
theorem cost_unavailable_accuracy_intact (t : Table) (h : t.hasCost = false) :
    costTab t = CostResult.unavailable ∧
    ∀ a ∈ percentage_correct t.rows,
      a.total = pairTotal t.rows (a.model, a.platform) ∧
      a.correct = pairCorrect t.rows (a.model, a.platform) ∧
      a.percentage = ((a.correct : ℚ) / (a.total : ℚ)) * 100 ∧
      a.platform ≠ "Human" := by
  constructor
  · unfold costTab
    rw [h]
    rfl
  · intro a ha
    rcases mem_percentage_correct.mp ha with ⟨_, _, h3, h4, h5, h6⟩
    exact ⟨h3, h4, h5, h6⟩

/-- A table without the cost column, for the C6 witness. -/
def c6Table : Table :=
  ⟨[⟨1, "Contracts", "Claude", "ModelA", true, 0, 0⟩], false, false⟩

/-- Witness instantiating the C6 theorem on a concrete table that lacks the
cost column. -/
theorem cost_unavailable_accuracy_intact_witness :
    costTab c6Table = CostResult.unavailable ∧
    ∀ a ∈ percentage_correct c6Table.rows,
      a.total = pairTotal c6Table.rows (a.model, a.platform) ∧
      a.correct = pairCorrect c6Table.rows (a.model, a.platform) ∧
      a.percentage = ((a.correct : ℚ) / (a.total : ℚ)) * 100 ∧
      a.platform ≠ "Human" :=
  cost_unavailable_accuracy_intact c6Table rfl

/-! ### Claim C5 -/

/-- C5: with a cost column present, the cost tab's table contains only
non-Human pairs; each row's average cost is the sum of the pair's
`total_cost` values divided by its row count, and its `Percentage Correct`
agrees with the percentage the tab-1 accuracy aggregator computes for the
same pair. -/
theorem cost_efficiency_matches_accuracy (t : Table) (h : t.hasCost = true) :
    costTab t = CostResult.available (merged_data t.rows) ∧
    ∀ cr ∈ merged_data t.rows,
      cr.platform ≠ "Human" ∧
      cr.averageCost =
        ((t.rows.filter fun r => decide (pairKey r = (cr.model, cr.platform))).map
          (·.totalCost)).sum / (pairTotal t.rows (cr.model, cr.platform) : ℚ) ∧
      ∀ a ∈ percentage_correct t.rows,
        a.model = cr.model → a.platform = cr.platform →
          cr.percentageCorrect = a.percentage := by
  constructor
  · unfold costTab
    rw [h]
    rfl
  · intro cr hcr
    unfold merged_data at hcr
    rcases mem_map.mp hcr with ⟨⟨⟨m0, p0⟩, n0⟩, he, rfl⟩
    rw [mem_filter] at he
    obtain ⟨heg, hne⟩ := he
    rcases mem_groupCount.mp heg with ⟨_, hn0⟩
    refine ⟨bne_iff_ne.mp hne, ?_, ?_⟩
    · rw [hn0]
      rfl
    · intro a ha hm hp
      rcases mem_percentage_correct.mp ha with ⟨h1, h2, h3, h4, h5, _⟩
      rw [hm, hp] at h1 h2 h3 h4
      show ((lookupKey (correct_answers t.rows) (m0, p0)).getD 0 : ℚ) /
          ((lookupKey (total_questions t.rows) (m0, p0)).getD 0 : ℚ) * 100 = a.percentage
      rw [h5, h3, h4, lookupKey_correct_answers, if_pos h2,
        lookupKey_total_questions, if_pos h1]
      rfl

/-- A table with the cost column, for the C5 witness. -/
def c5Table : Table :=
  ⟨[⟨1, "Contracts", "Claude", "ModelA", true, 1, 2⟩,
    ⟨2, "Torts", "Claude", "ModelA", false, 3, 2⟩], true, true⟩

/-- Witness instantiating the C5 theorem on a concrete table with costs. -/
theorem cost_efficiency_matches_accuracy_witness :
    costTab c5Table = CostResult.available (merged_data c5Table.rows) ∧
    ∀ cr ∈ merged_data c5Table.rows,
      cr.platform ≠ "Human" ∧
      cr.averageCost =
        ((c5Table.rows.filter fun r => decide (pairKey r = (cr.model, cr.platform))).map
          (·.totalCost)).sum / (pairTotal c5Table.rows (cr.model, cr.platform) : ℚ) ∧
      ∀ a ∈ percentage_correct c5Table.rows,
        a.model = cr.model → a.platform = cr.platform →
          cr.percentageCorrect = a.percentage :=
  cost_efficiency_matches_accuracy c5Table rfl

/-! ### Claim C8 -/

/-- Working set on which the code's rounding differs from the claim's exact
formula: one of three models answers question 1 correctly. -/
def c8CounterRows : List Row :=
  [⟨1, "Contracts", "Claude", "ModelA", true, 0, 0⟩,
   ⟨1, "Contracts", "Claude", "ModelB", false, 0, 0⟩,
   ⟨1, "Contracts", "Claude", "ModelC", false, 0, 0⟩]

/-- Evaluation of the banker's rounding at a rational with fractional part
below one half. -/
theorem roundHalfEven_of_lt_half {q : ℚ} {n : ℤ} (h1 : (n : ℚ) ≤ q) (h2 : q - n < 1/2) :
    roundHalfEven q = n := by
  have hf : ⌊q⌋ = n := by
    rw [Int.floor_eq_iff]
    refine ⟨h1, ?_⟩
    have h3 : ((n : ℚ) + 1) = n + 1 := by ring
    linarith
  unfold roundHalfEven
  simp only [hf]
  rw [if_pos h2]

theorem round1_third : round1 ((((1:ℕ):ℚ)) / (((3:ℕ):ℚ)) * 100) = 333/10 := by
  unfold round1
  rw [roundHalfEven_of_lt_half (n := 333) (by norm_num) (by norm_num)]
  norm_num

theorem round1_half : round1 ((((1:ℕ):ℚ)) / (((2:ℕ):ℚ)) * 100) = 50 := by
  unfold round1
  rw [roundHalfEven_of_lt_half (n := 500) (by norm_num) (by norm_num)]
  norm_num

/-- C8 counterexample: with one correct answer out of three models the code
reports the percentage 33.3 (rounded to one decimal at main.py line 597),
not the claim's 100 * 1 / 3. -/
theorem per_question_summary_counterexample :
    question_summary c8CounterRows = [⟨1, 1, 3, 333/10⟩] ∧
    ((333 : ℚ) / 10) ≠ 100 * 1 / 3 := by
  constructor
  · have h0 : question_summary c8CounterRows
        = [⟨1, 1, 3, round1 ((((1:ℕ):ℚ)) / (((3:ℕ):ℚ)) * 100)⟩] := rfl
    rw [h0, round1_third]
  · norm_num

/-- C8 (amended): for each question present in the working set the summary
holds total_correct = the number of its rows with correct = true and
total_models = the number of distinct models attempting it, and
percentage_correct = 100 * total_correct / total_models rounded to one
decimal place; and the claim's concrete two-model example yields exactly
(question 1, total_correct 1, total_models 2, percentage 50.0). -/
theorem per_question_summary_amended (rows : List Row) (q : Nat)
    (hq : q ∈ rows.map (·.questionNumber)) :
    (⟨q, (rows.filter fun r => decide (r.questionNumber = q)).countP (·.correct),
        ((rows.filter fun r => decide (r.questionNumber = q)).map (·.model)).dedup.length,
        round1 ((((rows.filter fun r => decide (r.questionNumber = q)).countP (·.correct) : ℚ) /
          (((rows.filter fun r => decide (r.questionNumber = q)).map (·.model)).dedup.length : ℚ))
          * 100)⟩ : QSum)
      ∈ question_summary rows ∧
    question_summary
      [⟨1, "Contracts", "Claude", "ModelA", true, 0, 0⟩,
       ⟨1, "Contracts", "Claude", "ModelB", false, 0, 0⟩] = [⟨1, 1, 2, 50⟩] := by
  constructor
  · unfold question_summary
    exact mem_map.mpr ⟨q, mem_sortedKeys.mpr hq, rfl⟩
  · have h0 : question_summary
        [⟨1, "Contracts", "Claude", "ModelA", true, 0, 0⟩,
         ⟨1, "Contracts", "Claude", "ModelB", false, 0, 0⟩]
        = [⟨1, 1, 2, round1 ((((1:ℕ):ℚ)) / (((2:ℕ):ℚ)) * 100)⟩] := rfl
    rw [h0, round1_half]

/-- The claim's example working set, for the C8 witness. -/
def c8WitnessRows : List Row :=
  [⟨1, "Contracts", "Claude", "ModelA", true, 0, 0⟩,
   ⟨1, "Contracts", "Claude", "ModelB", false, 0, 0⟩]

/-- Witness instantiating the amended C8 theorem on the claim's example. -/
theorem per_question_summary_amended_witness :
    (⟨1, (c8WitnessRows.filter fun r => decide (r.questionNumber = 1)).countP (·.correct),
        ((c8WitnessRows.filter fun r => decide (r.questionNumber = 1)).map (·.model)).dedup.length,
        round1 ((((c8WitnessRows.filter fun r => decide (r.questionNumber = 1)).countP (·.correct) : ℚ) /
          (((c8WitnessRows.filter fun r => decide (r.questionNumber = 1)).map (·.model)).dedup.length : ℚ))
          * 100)⟩ : QSum)
      ∈ question_summary c8WitnessRows ∧
    question_summary
      [⟨1, "Contracts", "Claude", "ModelA", true, 0, 0⟩,
       ⟨1, "Contracts", "Claude", "ModelB", false, 0, 0⟩] = [⟨1, 1, 2, 50⟩] :=
  per_question_summary_amended c8WitnessRows 1 (by decide)

/-! ### Claim C9 -/

theorem mem_model_order {rows : List Row} {c m : String} {n : Nat} :
    (m, n) ∈ model_order rows c ↔ ∃ p, ((m, p, c), n) ∈ category_counts rows := by
  unfold model_order
  constructor
  · intro h
    rcases mem_map.mp h with ⟨⟨⟨em, ep, ec⟩, en⟩, he, hpr⟩
    rw [mem_filter] at he
    obtain ⟨he1, he2⟩ := he
    injection hpr with hm hn
    subst hm
    subst hn
    have hec : ec = c := by simpa using he2
    subst hec
    exact ⟨ep, he1⟩
  · rintro ⟨p, hp⟩
    refine mem_map.mpr ⟨((m, p, c), n), mem_filter.mpr ⟨hp, ?_⟩, rfl⟩
    simp

theorem mem_category_counts_key {rows : List Row} {k : String × String × String} {n : Nat}
    (h : (k, n) ∈ category_counts rows) :
    ∃ r0 ∈ rows, r0.correct = true ∧ r0.model = k.1 ∧ r0.platform = k.2.1 ∧
      normalizeCategory r0.lawCategory = k.2.2 := by
  rcases mem_groupCount.mp h with ⟨hk, _⟩
  rcases mem_map.mp hk with ⟨r2, hr2, hkey⟩
  rcases mem_map.mp hr2 with ⟨r0, hr0, rfl⟩
  rw [mem_filter] at hr0
  subst hkey
  exact ⟨r0, hr0.1, hr0.2, rfl, rfl, rfl⟩

theorem category_counts_key_intro {rows : List Row} {r : Row} (hr : r ∈ rows)
    (hc : r.correct = true) :
    ((r.model, r.platform, normalizeCategory r.lawCategory),
      (correct_df rows).countP fun s =>
        decide (tripleKey s = (r.model, r.platform, normalizeCategory r.lawCategory)))
      ∈ category_counts rows := by
  unfold category_counts
  apply mem_groupCount.mpr
  refine ⟨?_, rfl⟩
  exact mem_map.mpr ⟨{ r with lawCategory := normalizeCategory r.lawCategory },
    mem_map.mpr ⟨r, mem_filter.mpr ⟨hr, by rw [hc]⟩, rfl⟩, rfl⟩

theorem model_order_count {rows : List Row} {c : String}
    (hinv : ∀ r ∈ rows, ∀ s ∈ rows, r.model = s.model → r.platform = s.platform)
    {m : String} {n : Nat} (hmn : (m, n) ∈ model_order rows c) :
    n = rows.countP fun r =>
      decide (r.correct = true ∧ r.model = m ∧ normalizeCategory r.lawCategory = c) := by
  rcases mem_model_order.mp hmn with ⟨p, hp⟩
  rcases mem_category_counts_key hp with ⟨r0, hr0, hc0, hm0, hp0, _⟩
  have hcnt : n = rows.countP fun r =>
      decide (r.correct = true ∧ r.model = m ∧ r.platform = p ∧
        normalizeCategory r.lawCategory = c) :=
    category_counts_count rows ((m, p, c), n) hp
  rw [hcnt]
  apply countP_congr
  intro r hr
  simp only [decide_eq_true_eq]
  constructor
  · rintro ⟨h1, h2, _, h4⟩
    exact ⟨h1, h2, h4⟩
  · rintro ⟨h1, h2, h4⟩
    refine ⟨h1, h2, ?_, h4⟩
    rw [hinv r hr r0 hr0 (h2.trans hm0.symm), hp0]

/-- Working set for the C9 counterexample: ModelB has a correct Torts answer
but none in Contracts. -/
def c9CounterRows : List Row :=
  [⟨1, "Contracts", "Claude", "ModelA", true, 0, 0⟩,
   ⟨2, "Torts", "Claude", "ModelB", true, 0, 0⟩]

/-- C9 counterexample: ModelB appears in the category-breakdown output, yet
the model ordering computed for the selected category Contracts omits it, so
the code does not order all models of the output by the selected category's
count. -/
theorem category_sort_counterexample :
    "ModelB" ∈ (category_counts c9CounterRows).map (fun e => e.1.1) ∧
    sorted_models c9CounterRows "Contracts" = ["ModelA"] ∧
    "ModelB" ∉ sorted_models c9CounterRows "Contracts" := by
  refine ⟨?_, rfl, ?_⟩ <;> decide

/-- C9 (amended): in category sort mode the computed model ordering lists
exactly the models having at least one correct answer in the selected
category (models without one are omitted rather than ranked), ordered
descending by that category's correct-answer count. -/
theorem category_sort_amended (rows : List Row) (c : String)
    (hinv : ∀ r ∈ rows, ∀ s ∈ rows, r.model = s.model → r.platform = s.platform) :
    (∀ m, m ∈ sorted_models rows c ↔
      0 < rows.countP fun r =>
        decide (r.correct = true ∧ r.model = m ∧ normalizeCategory r.lawCategory = c)) ∧
    (sorted_models rows c).Pairwise fun m m2 =>
      rows.countP (fun r =>
        decide (r.correct = true ∧ r.model = m2 ∧ normalizeCategory r.lawCategory = c)) ≤
      rows.countP fun r =>
        decide (r.correct = true ∧ r.model = m ∧ normalizeCategory r.lawCategory = c) := by
  constructor
  · intro m
    constructor
    · intro hm
      unfold sorted_models at hm
      rcases mem_map.mp hm with ⟨⟨m0, n0⟩, hpr, hprm⟩
      simp only at hprm
      subst hprm
      rw [mem_insertionSort] at hpr
      rcases mem_model_order.mp hpr with ⟨p, hp⟩
      rcases mem_category_counts_key hp with ⟨r0, hr0, hc0, hm0, _, hcat0⟩
      apply countP_pos_iff.mpr
      exact ⟨r0, hr0, by simp [hc0, hm0, hcat0]⟩
    · intro hpos
      rcases countP_pos_iff.mp hpos with ⟨r0, hr0, hp0⟩
      rw [decide_eq_true_eq] at hp0
      obtain ⟨hc0, hm0, hcat0⟩ := hp0
      have hkey := category_counts_key_intro hr0 hc0
      rw [hm0, hcat0] at hkey
      have hmo := mem_model_order.mpr ⟨r0.platform, hkey⟩
      unfold sorted_models
      exact mem_map.mpr ⟨_, (mem_insertionSort _).mpr hmo, rfl⟩
  · unfold sorted_models
    haveI : IsTotal (String × Nat) (fun a b => b.2 ≤ a.2) := ⟨fun a b => le_total b.2 a.2⟩
    haveI : IsTrans (String × Nat) (fun a b => b.2 ≤ a.2) := ⟨fun _ _ _ h1 h2 => le_trans h2 h1⟩
    have hsorted := sorted_insertionSort (fun a b : String × Nat => b.2 ≤ a.2)
      (model_order rows c)
    rw [pairwise_map]
    refine Pairwise.imp_of_mem ?_ hsorted
    intro a b ha hb hr
    have ha2 := model_order_count hinv
      (show (a.1, a.2) ∈ model_order rows c from (mem_insertionSort _).mp ha)
    have hb2 := model_order_count hinv
      (show (b.1, b.2) ∈ model_order rows c from (mem_insertionSort _).mp hb)
    rw [← ha2, ← hb2]
    exact hr

/-- Working set for the C9 witness: two models with Contracts counts 2 and
1. -/
def c9WitnessRows : List Row :=
  [⟨1, "Contracts", "Claude", "ModelA", true, 0, 0⟩,
   ⟨2, "Contracts", "Claude", "ModelA", true, 0, 0⟩,
   ⟨1, "Contracts", "Gemini", "ModelB", true, 0, 0⟩,
   ⟨3, "Torts", "Gemini", "ModelB", true, 0, 0⟩]

/-- Witness instantiating the amended C9 theorem on a concrete working
set. -/
theorem category_sort_amended_witness :
    (∀ m, m ∈ sorted_models c9WitnessRows "Contracts" ↔
      0 < c9WitnessRows.countP fun r =>
        decide (r.correct = true ∧ r.model = m ∧
          normalizeCategory r.lawCategory = "Contracts")) ∧
    (sorted_models c9WitnessRows "Contracts").Pairwise fun m m2 =>
      c9WitnessRows.countP (fun r =>
        decide (r.correct = true ∧ r.model = m2 ∧
          normalizeCategory r.lawCategory = "Contracts")) ≤
      c9WitnessRows.countP fun r =>
        decide (r.correct = true ∧ r.model = m ∧
          normalizeCategory r.lawCategory = "Contracts") :=
  category_sort_amended c9WitnessRows "Contracts" (by decide)

/-! ### Claim C4 -/

theorem normalizeCategory_idem (c : String) :
    normalizeCategory (normalizeCategory c) = normalizeCategory c := by
  by_cases h : c = "Criminal Law/Prosecution"
  · subst h
    decide
  · simp [normalizeCategory, h]

theorem category_counts2_eq (rows : List Row) :
    category_counts2 rows = category_counts rows := by
  unfold category_counts2
  have h : ∀ e ∈ category_counts rows,
      (fun e : (String × String × String) × Nat =>
        ((e.1.1, e.1.2.1, normalizeCategory e.1.2.2), e.2)) e = id e := by
    rintro ⟨⟨km, kp, kc⟩, n⟩ he
    rcases mem_category_counts_key he with ⟨r0, _, _, _, _, hcat⟩
    have hcat2 : normalizeCategory r0.lawCategory = kc := hcat
    simp only [id]
    rw [← hcat2, normalizeCategory_idem]
  rw [map_congr_left h, map_id]

theorem filter_graph_key {K V : Type} [DecidableEq K] (ks : List K) (f : K → V) (k : K)
    (hn : ks.Nodup) :
    (ks.map fun x => (x, f x)).filter (fun e => decide (e.1 = k)) =
      if k ∈ ks then [(k, f k)] else [] := by
  induction ks with
  | nil => rfl
  | cons a t ih =>
    rcases nodup_cons.mp hn with ⟨ha, ht⟩
    rw [map_cons, filter_cons]
    by_cases hak : a = k
    · subst hak
      rw [if_pos (by simp), ih ht, if_neg ha, if_pos (mem_cons_self a t)]
    · rw [if_neg (by simp [hak]), ih ht]
      by_cases hk : k ∈ t
      · rw [if_pos hk, if_pos (mem_cons_of_mem a hk)]
      · rw [if_neg hk, if_neg ?_]
        intro hmem
        rcases mem_cons.mp hmem with h2 | h2
        · exact hak h2.symm
        · exact hk h2

theorem cell_sum (rows : List Row) (k : String × String × String) :
    (((category_counts rows).filter fun e => decide (e.1 = k)).map (·.2)).sum
      = (correct_df rows).countP fun r => decide (tripleKey r = k) := by
  unfold category_counts groupCount
  rw [filter_graph_key _ _ _ (nodup_sortedKeys _ _ _)]
  by_cases hk : k ∈ sortedKeys tripleLe tripleKey (correct_df rows)
  · rw [if_pos hk]
    simp
  · rw [if_neg hk]
    symm
    show (correct_df rows).countP (fun r => decide (tripleKey r = k)) = 0
    rw [countP_eq_zero]
    intro r hr hp
    rw [decide_eq_true_eq] at hp
    exact hk (mem_sortedKeys.mpr (mem_map.mpr ⟨r, hr, hp⟩))

theorem sum_map_ite_nodup {K : Type} [DecidableEq K] :
    ∀ (ks : List K), ks.Nodup → ∀ x ∈ ks,
      (ks.map fun k => if x = k then 1 else 0).sum = 1 := by
  intro ks
  induction ks with
  | nil =>
    intro _ x hx
    cases hx
  | cons a t ih =>
    intro hn x hx
    rcases nodup_cons.mp hn with ⟨ha, ht⟩
    rw [map_cons, sum_cons]
    rcases mem_cons.mp hx with rfl | hx2
    · rw [if_pos rfl]
      have hz : (t.map fun k => if x = k then 1 else 0).sum = 0 := by
        apply sum_eq_zero
        intro y hy
        rcases mem_map.mp hy with ⟨k2, hk2, rfl⟩
        exact if_neg fun he => ha (by rw [he]; exact hk2)
      rw [hz]
    · rw [if_neg (fun (he : x = a) => ha (by rw [← he]; exact hx2)), ih ht x hx2]

theorem sum_countP_partition {α K : Type} [DecidableEq K] (f : α → K) :
    ∀ (l : List α) (ks : List K), ks.Nodup → (∀ a ∈ l, f a ∈ ks) →
      (ks.map fun k => l.countP fun a => decide (f a = k)).sum = l.length := by
  intro l
  induction l with
  | nil =>
    intro ks _ _
    simp
  | cons a l ih =>
    intro ks hn hf
    have h1 : (ks.map fun k => (a :: l).countP fun x => decide (f x = k))
        = ks.map fun k => (l.countP fun x => decide (f x = k)) + if f a = k then 1 else 0 := by
      apply map_congr_left
      intro k _
      rw [countP_cons]
      congr 1
      by_cases h : f a = k
      · rw [if_pos (by simp [h]), if_pos h]
      · rw [if_neg (by simp [h]), if_neg h]
    rw [h1, sum_map_add, ih ks hn fun x hx => hf x (mem_cons_of_mem a hx),
      sum_map_ite_nodup ks hn (f a) (hf a (mem_cons_self a l))]
    rfl

/-- C4: for every working set and every model appearing in both outputs, the
`Total` column of the category pivot (the row sum over the category columns)
equals that model's correct count in the raw-correct-count aggregator. -/
theorem pivot_total_matches_raw (rows : List Row) (m p : String) (pr : PivotRow)
    (hpr : pr ∈ pivot_table rows) (hm : pr.model = m) (hp : pr.platform = p)
    (n : Nat) (hcr : ((m, p), n) ∈ correct_counts rows) :
    pr.total = n := by
  have hn : n = pairCorrect rows (m, p) := by
    unfold correct_counts at hcr
    rw [mem_insertionSort, mem_filter] at hcr
    exact (mem_groupCount.mp hcr.1).2
  simp only [pivot_table] at hpr
  rw [category_counts2_eq] at hpr
  rw [mem_insertionSort] at hpr
  rcases mem_map.mp hpr with ⟨⟨k1, k2⟩, hk, hbuild⟩
  subst hbuild
  have hm2 : k1 = m := hm
  have hp2 : k2 = p := hp
  show ((insertionSort strLe ((category_counts rows).map fun e => e.1.2.2).dedup).map
      (fun c => (c, (((category_counts rows).filter fun e =>
        decide (e.1 = (k1, k2, c))).map (fun x => x.2)).sum)) |>.map fun x => x.2).sum = n
  rw [map_map]
  have hcats : (insertionSort strLe ((category_counts rows).map fun e => e.1.2.2).dedup).Nodup :=
    ((perm_insertionSort strLe _).nodup_iff).mpr (nodup_dedup _)
  have hstep : ∀ c, (((category_counts rows).filter fun e =>
      decide (e.1 = (k1, k2, c))).map (fun x => x.2)).sum =
      ((correct_df rows).filter fun r => decide (r.model = k1 ∧ r.platform = k2)).countP
        fun r => decide (r.lawCategory = c) := by
    intro c
    rw [cell_sum rows (k1, k2, c), countP_filter]
    apply countP_congr
    intro r _
    simp only [tripleKey, decide_eq_true_eq, Bool.and_eq_true, Prod.mk.injEq]
    constructor
    · rintro ⟨h1, h2, h3⟩
      exact ⟨h3, h1, h2⟩
    · rintro ⟨h3, h1, h2⟩
      exact ⟨h1, h2, h3⟩
  have hmapeq : ((insertionSort strLe ((category_counts rows).map fun e => e.1.2.2).dedup).map
      ((fun x : String × Nat => x.2) ∘ fun c => (c, (((category_counts rows).filter fun e =>
        decide (e.1 = (k1, k2, c))).map (fun x => x.2)).sum)))
      = (insertionSort strLe ((category_counts rows).map fun e => e.1.2.2).dedup).map
        fun c => ((correct_df rows).filter fun r =>
          decide (r.model = k1 ∧ r.platform = k2)).countP fun r => decide (r.lawCategory = c) := by
    apply map_congr_left
    intro c _
    exact hstep c
  rw [hmapeq]
  have hcover : ∀ r ∈ (correct_df rows).filter fun r =>
      decide (r.model = k1 ∧ r.platform = k2),
      r.lawCategory ∈ insertionSort strLe ((category_counts rows).map fun e => e.1.2.2).dedup := by
    intro r hr
    have hr2 : r ∈ correct_df rows := mem_of_mem_filter hr
    have hr3 : tripleKey r ∈ (correct_df rows).map tripleKey := mem_map_of_mem _ hr2
    rw [mem_insertionSort, mem_dedup]
    exact mem_map.mpr ⟨(tripleKey r,
      (correct_df rows).countP fun s => decide (tripleKey s = tripleKey r)),
      mem_groupCount.mpr ⟨hr3, rfl⟩, rfl⟩
  have hpart := sum_countP_partition (fun r : Row => r.lawCategory)
    ((correct_df rows).filter fun r => decide (r.model = k1 ∧ r.platform = k2))
    (insertionSort strLe ((category_counts rows).map fun e => e.1.2.2).dedup) hcats hcover
  rw [hpart]
  have hlen : ((correct_df rows).filter fun r =>
      decide (r.model = k1 ∧ r.platform = k2)).length = pairCorrect rows (k1, k2) := by
    rw [← countP_eq_length_filter]
    unfold correct_df pairCorrect
    rw [countP_map]
    apply countP_congr
    intro r _
    simp [pairKey, Prod.mk.injEq]
  rw [hlen, hm2, hp2]
  exact hn.symm

/-- Working set for the C4 witness: one model with correct answers in two
categories and one incorrect row. -/
def c4WitnessRows : List Row :=
  [⟨1, "Contracts", "Claude", "ModelA", true, 0, 0⟩,
   ⟨2, "Torts", "Claude", "ModelA", true, 0, 0⟩,
   ⟨3, "Torts", "Claude", "ModelA", false, 0, 0⟩]

/-- Witness instantiating the C4 theorem on a concrete working set. -/
theorem pivot_total_matches_raw_witness :
    (⟨"ModelA", "Claude", [("Contracts", 1), ("Torts", 1)], 2⟩ : PivotRow).total = 2 :=
  pivot_total_matches_raw c4WitnessRows "ModelA" "Claude"
    ⟨"ModelA", "Claude", [("Contracts", 1), ("Torts", 1)], 2⟩
    (by decide) rfl rfl 2 (by decide)
